import Mathlib

/-!
Verification of the xgpu code generator's header parser and type/binding
model against its natural-language specification.

The generator (TypeScript, `codegen/generate.ts` and helpers) parses the
`webgpu.h` family of C headers and builds an internal object model (type
registry, enum/opaque/struct/function descriptors).  This file gives a
shallow embedding of the relevant functions in Lean: strings are Lean
`String`s, the handful of JavaScript built-ins the code relies on
(`trim`, `split`, `replaceAll`, `includes`, `Number`, `toString(16)`,
32-bit `|`) are modelled explicitly, mutation of the registry is explicit
state passing, and `throw` is `Except.error`.

All recursions that are not structural use an explicit fuel argument so
that every definition evaluates inside the kernel (`rfl` / `decide`).
-/

set_option maxRecDepth 16384

namespace Xgpu

/-! ### JavaScript string primitives

The generator manipulates JavaScript strings.  We model the operations it
uses over `List Char` / `String`.  All inputs in scope are ASCII. -/

/-- Character class of JavaScript `\s` restricted to the characters that
occur in the headers (space, tab, CR, LF); used by `trim`. -/
def jsWhitespace (c : Char) : Bool :=
  c == ' ' || c == '\t' || c == '\r' || c == '\n'

/-- List-level trim: drop whitespace from both ends. -/
def trimChars (l : List Char) : List Char :=
  ((l.dropWhile jsWhitespace).reverse.dropWhile jsWhitespace).reverse

/-- Models JavaScript `String.prototype.trim`. -/
def jsTrim (s : String) : String := ⟨trimChars s.data⟩

/-- Splits a character list on a separator character (JavaScript
`split(sep)` with a one-character separator; every separator in the
generator is one character). -/
def splitCharAux (sep : Char) : List Char → List Char → List (List Char)
  | [], acc => [acc.reverse]
  | c :: rest, acc =>
      if c == sep then acc.reverse :: splitCharAux sep rest []
      else splitCharAux sep rest (c :: acc)

/-- Models JavaScript `split(sep)` for a one-character separator. -/
def jsSplit (s : String) (sep : Char) : List String :=
  (splitCharAux sep s.data []).map (fun l => ⟨l⟩)

/-- Does `pat` occur as a contiguous run in `l`?  (Helper for `includes`.) -/
def containsSub (pat : List Char) : List Char → Bool
  | [] => pat.isEmpty
  | c :: rest => pat.isPrefixOf (c :: rest) || containsSub pat rest

/-- Models JavaScript `String.prototype.includes`. -/
def jsIncludes (s pat : String) : Bool := containsSub pat.data s.data

/-- Models JavaScript `String.prototype.startsWith`. -/
def jsStartsWith (s pat : String) : Bool := pat.data.isPrefixOf s.data

/-- Models JavaScript `String.prototype.endsWith`. -/
def jsEndsWith (s pat : String) : Bool := pat.data.isSuffixOf s.data

/-- Models JavaScript `String.prototype.toLowerCase` (ASCII inputs). -/
def jsToLowerCase (s : String) : String := ⟨s.data.map Char.toLower⟩

/-- Models JavaScript `s.slice(0, s.length - n)`: drop the last `n`
characters. -/
def dropRightStr (s : String) (n : Nat) : String :=
  ⟨s.data.take (s.data.length - n)⟩

/-- Replacement scan: replace every non-overlapping occurrence of
`p :: ps` by `rep`, left to right.  The fuel is at least the length of
the scanned list, so it never runs out. -/
def replaceAllAux (p : Char) (ps rep : List Char) : Nat → List Char → List Char
  | 0, l => l
  | _ + 1, [] => []
  | fuel + 1, c :: rest =>
      if (p :: ps).isPrefixOf (c :: rest) then
        rep ++ replaceAllAux p ps rep fuel (rest.drop ps.length)
      else
        c :: replaceAllAux p ps rep fuel rest

/-- Models JavaScript `String.prototype.replaceAll` with a literal
(non-empty) pattern.  The generator never calls it with an empty
pattern; for completeness an empty pattern leaves the string unchanged. -/
def jsReplaceAll (s pat rep : String) : String :=
  match pat.data with
  | [] => s
  | p :: ps => ⟨replaceAllAux p ps rep.data (s.data.length + 1) s.data⟩

/-- Models JavaScript `String.prototype.repeat` for a count `n`. -/
def strRepeat (p : String) : Nat → String
  | 0 => ""
  | n + 1 => p ++ strRepeat p n

/-- Joins a list of strings with a separator (JavaScript `Array.join`). -/
def joinWith (sep : String) : List String → String
  | [] => ""
  | [s] => s
  | s :: rest => s ++ sep ++ joinWith sep rest

/-! ### JavaScript numbers

`Number(...)`, `toString(16)` and the 32-bit bitwise OR used by `eval`
on enum value expressions. -/

/-- Value of a decimal digit character. -/
def decDigitVal (c : Char) : Option Nat :=
  if c.isDigit then some (c.toNat - 48) else none

/-- Value of a hexadecimal digit character. -/
def hexDigitVal (c : Char) : Option Nat :=
  if c.isDigit then some (c.toNat - 48)
  else if 'a' ≤ c && c ≤ 'f' then some (c.toNat - 87)
  else if 'A' ≤ c && c ≤ 'F' then some (c.toNat - 55)
  else none

/-- Parses a non-empty run of digits in the given base via the digit
reader `dv`; `none` when empty or when a non-digit occurs. -/
def parseDigits (dv : Char → Option Nat) (base : Nat) (l : List Char) : Option Nat :=
  l.foldl
    (fun acc c =>
      match acc, dv c with
      | some a, some d => some (a * base + d)
      | _, _ => none)
    (if l.isEmpty then none else some 0)

/-- Models JavaScript `Number(s)` on the inputs the generator feeds it:
nonnegative decimal or `0x` hexadecimal integer literals (with
surrounding whitespace; the empty string is `0`).  Everything else —
in particular expressions such as `"A_X | A_Y"` — is NaN, modelled as
`none`. -/
def jsNumberNat (s : String) : Option Nat :=
  let t := jsTrim s
  if t == "" then some 0
  else if jsStartsWith t "0x" || jsStartsWith t "0X" then
    parseDigits hexDigitVal 16 (t.data.drop 2)
  else
    parseDigits decDigitVal 10 t.data

/-- Lower-case hexadecimal digit character. -/
def hexDigitChar (n : Nat) : Char :=
  if n < 10 then Char.ofNat (48 + n) else Char.ofNat (87 + n)

/-- Hexadecimal digit expansion of `n` (most significant first);
fueled, `fuel` bounds the number of digits produced. -/
def natToHexAux : Nat → Nat → List Char
  | 0, _ => []
  | fuel + 1, n =>
      if n < 16 then [hexDigitChar n]
      else natToHexAux fuel (n / 16) ++ [hexDigitChar (n % 16)]

/-- Models JavaScript `n.toString(16)` for a nonnegative integer.
Sixteen digits of fuel cover every value below `16^16 = 2^64`, far above
anything the generator prints (JavaScript numbers in scope are 32-bit
results and header literals). -/
def natToHexJs (n : Nat) : String := ⟨natToHexAux 16 n⟩

/-- Models JavaScript `i.toString(16)` for an integer: a negative value
is rendered as a minus sign followed by the hex digits of its absolute
value. -/
def intToHexJs (i : Int) : String :=
  if i < 0 then "-" ++ natToHexJs i.natAbs else natToHexJs i.toNat

/-- Models JavaScript `ToUint32`: the value modulo `2^32`. -/
def toUint32 (i : Int) : Nat := (i % 4294967296).toNat

/-- Reads a 32-bit pattern back as a signed (two's complement) value,
as JavaScript's bitwise operators do. -/
def fromUint32 (m : Nat) : Int :=
  if m < 2147483648 then (m : Int) else (m : Int) - 4294967296

/-- Models the JavaScript bitwise OR `a | b`: both operands are
truncated to 32 bits and the result is read back as a signed 32-bit
value. -/
def jsOr32 (a b : Int) : Int := fromUint32 (toUint32 a ||| toUint32 b)

/-! ### The string manipulation helpers (`codegen/stringmanip.ts`) -/

/-- Embeds `removePrefix(s, prefixes)`: strips each listed leading
pattern in order (each at most once). -/
def removePre (s : String) (pres : List String) : String :=
  pres.foldl
    (fun s p => if jsStartsWith s p then ⟨s.data.drop p.data.length⟩ else s) s

/-- Embeds `removePrefixCaseInsensitive(s, prefix)`. -/
def removePreCI (s : String) (p : String) : String :=
  if jsStartsWith (jsToLowerCase s) (jsToLowerCase p) then
    ⟨s.data.drop p.data.length⟩
  else s

/-- Embeds `cleanup(s, prefix)`: trim, then strip the prefix and a
leading underscore. -/
def cleanup (s : String) (p : String) : String :=
  removePre (jsTrim s) [p, "_"]

/-- Embeds `recase(ident, upperFirst)`: force the case of the first
character.  JavaScript `charAt(0)` of an empty string is `""`, so an
empty identifier is returned unchanged. -/
def recase (ident : String) (upperFirst : Bool) : String :=
  match ident.data with
  | [] => ident
  | c :: rest => ⟨(if upperFirst then c.toUpper else c.toLower) :: rest⟩

/-- Models the JavaScript test `ident.match(/^[a-zA-Z]/) !== null`:
the first character is an ASCII letter. -/
def startsWithAsciiLetter (s : String) : Bool :=
  match s.data with
  | [] => false
  | c :: _ => c.isAlpha

/-- Embeds `sanitizeIdent(ident)` (`codegen/extract_docs.ts` lines
190–195): prepend an underscore when the identifier does not start with
an ASCII letter or equals `"None"`. -/
def sanitizeIdent (ident : String) : String :=
  if !(startsWithAsciiLetter ident) || ident == "None" then "_" ++ ident
  else ident

/-- Embeds `toPyName(ident, isClass)` (`codegen/pygen.ts`). -/
def toPyName (ident : String) (isClass : Bool) : String :=
  recase (removePre ident ["WGPU", "wgpu"]) isClass

/-! ### The object model

The TypeScript `CType` interface and its implementations (`CEnum`,
`CFlags`, `COpaque`, `CFuncPointer`, `CStruct`, primitives) carry both
data and emission methods.  The embedding keeps the data; the emission
methods that the claims depend on are embedded as standalone functions
further below.  Mutable maps (`Map<string, ...>`) become insertion-order
association lists (`Map.set` replaces in place or appends). -/

/-- Embeds the `CEnumVal` interface: one raw enum entry. -/
structure CEnumVal where
  name : String
  val : String
deriving DecidableEq, Repr

/-- Embeds the `Refinfo` interface produced by `parseTypeRef`:
qualifiers and inner type name of one declaration. -/
structure Refinfo where
  nullable : Option Bool := none
  constant : Option Bool := none
  explicitPointer : Option Bool := none
  inner : String := "unknown"
deriving DecidableEq, Repr

/-- Embeds the `FieldPair` interface: a raw (name, type reference)
struct field before classification. -/
structure FieldPair where
  name : String
  type : Refinfo
deriving DecidableEq, Repr

mutual

/-- Embeds the `CType` union: primitives, `CEnum`, `CFlags`, `COpaque`,
`CFuncPointer` and `CStruct`, as a sum of their data fields.  Only
`COpaque` has an `addFunc` method in the source; its `funcs` map is the
`funcs` field here. -/
inductive CType where
  | prim (cName pyName : String)
  | cenum (cName pyName : String) (values : List CEnumVal) (sanitized : List CEnumVal)
      (flagType : Option String)
  | cflags (cName pyName : String) (etype : CType)
  | cOpaque (cName pyName : String) (funcs : List (String × CFunc))
  | cfuncptr (cName pyName argStr : String) (ret : FuncArg)
  | cstruct (cName pyName cdef : String) (fields : List CStructField) (noEmit : Bool)

/-- Embeds the `FuncArg` interface. -/
inductive FuncArg where
  | mk (name : String) (ctype : CType) (explicitPointer explicitConst nullable : Bool)

/-- Embeds the `CFunc` interface. -/
inductive CFunc where
  | mk (name signature : String) (args : List FuncArg) (ret : FuncArg)

/-- Embeds the `CStructField` implementations: `ValueField`,
`PointerField`, `ArrayField` (count+array fusion) and `CallbackField`
(callback+userdata fusion). -/
inductive CStructField where
  | valueField (name : String) (ctype : CType) (parentClass : String)
  | pointerField (name : String) (ctype : CType) (nullable : Bool)
  | arrayField (name countName : String) (ctype : CType)
  | callbackField (name userdataName : String) (ctype : CType)

end

/-- The `cName` property shared by all `CType` implementations. -/
def CType.cName : CType → String
  | .prim c _ => c
  | .cenum c _ _ _ _ => c
  | .cflags c _ _ => c
  | .cOpaque c _ _ => c
  | .cfuncptr c _ _ _ => c
  | .cstruct c _ _ _ _ => c

/-- The `kind` tag string of each `CType` implementation, exactly as in
the source (`CFlags` has kind `"enum"`, `CFuncPointer` has kind
`"opaque"`). -/
def CType.kind : CType → String
  | .prim _ _ => "primitive"
  | .cenum _ _ _ _ _ => "enum"
  | .cflags _ _ _ => "enum"
  | .cOpaque _ _ _ => "opaque"
  | .cfuncptr _ _ _ _ => "opaque"
  | .cstruct _ _ _ _ _ => "struct"

/-- Name of a `FuncArg`. -/
def FuncArg.name : FuncArg → String
  | .mk n _ _ _ _ => n

/-- Type of a `FuncArg`. -/
def FuncArg.ctype : FuncArg → CType
  | .mk _ t _ _ _ => t

/-- Name of a `CFunc`. -/
def CFunc.name : CFunc → String
  | .mk n _ _ _ => n

/-- Argument list of a `CFunc`. -/
def CFunc.args : CFunc → List FuncArg
  | .mk _ _ a _ => a

/-- Association-list lookup, modelling `Map.get`. -/
def mapGet {α : Type} (m : List (String × α)) (k : String) : Option α :=
  match m with
  | [] => none
  | (k', v) :: rest => if k' == k then some v else mapGet rest k

/-- Association-list update, modelling `Map.set`: replaces the value in
place when the key exists (JavaScript `Map` keeps insertion order),
otherwise appends. -/
def mapSet {α : Type} (m : List (String × α)) (k : String) (v : α) : List (String × α) :=
  match m with
  | [] => [(k, v)]
  | (k', v') :: rest =>
      if k' == k then (k, v) :: rest else (k', v') :: mapSet rest k v

/-- Membership test, modelling `Map.has`. -/
def mapHas {α : Type} (m : List (String × α)) (k : String) : Bool :=
  (mapGet m k).isSome

/-- Embeds the `Emittable` wrappers that `ApiInfo.wrappers` stores: list
wrappers and callback wrappers.  Only their registration (memoised by
key) matters to the claims. -/
inductive WrapperE where
  | listWrapper (ctype : CType)
  | callbackWrapper (cfp : CType)

/-- Embeds the mutable state of the `ApiInfo` class: the type registry,
the auxiliary wrapper registry, and the loose function list. -/
structure ApiInfo where
  types : List (String × CType)
  wrappers : List (String × WrapperE)
  looseFuncs : List CFunc

/-- Embeds `ApiInfo.UNKNOWN_TYPE`, the sentinel descriptor returned for
unregistered names. -/
def unknownType : CType := CType.prim "UNKNOWN" "UNKNOWN"

/-- Embeds the `PRIMITIVES` table of the `ApiInfo` constructor. -/
def primitivesTable : List (String × String) :=
  [("uint64_t", "int"), ("uint32_t", "int"), ("uint16_t", "int"),
   ("uint8_t", "int"), ("int64_t", "int"), ("int32_t", "int"),
   ("int16_t", "int"), ("int8_t", "int"), ("float", "float"),
   ("double", "float"), ("size_t", "int"), ("WGPUBool", "bool"),
   ("WGPUSubmissionIndex", "int"), ("UNKNOWN", "UNKNOWN")]

/-- Embeds the `ApiInfo` constructor: the registry pre-seeded with the
primitive types, then the special `void`, `WGPUProc` and `char` entries
(whose custom wrap/unwrap behaviour no claim depends on; they are kept
as primitives with their source names). -/
def apiInit : ApiInfo :=
  { types :=
      (primitivesTable.map (fun p => (p.1, CType.prim p.1 p.2)))
        ++ [("void", CType.prim "void" "VOID"),
            ("WGPUProc", CType.prim "WGPUProc" "VoidPtr"),
            ("char", CType.prim "char" "str")]
    wrappers := []
    looseFuncs := [] }

/-- Embeds `ApiInfo.getType` for a type-name string: the registered
descriptor, or the `UNKNOWN` sentinel (after logging) when the name is
not registered.  It is a total function: no lookup failure escapes. -/
def ApiInfo.getTypeStr (api : ApiInfo) (t : String) : CType :=
  match mapGet api.types t with
  | some ret => ret
  | none => unknownType

/-- Embeds `ApiInfo.getType` applied to a `Refinfo` (the non-string
branch takes `t.inner`). -/
def ApiInfo.getType (api : ApiInfo) (t : Refinfo) : CType :=
  api.getTypeStr t.inner

/-- Embeds `ApiInfo.createWrapperOnce(name, create)`. -/
def ApiInfo.createWrapperOnce (api : ApiInfo) (name : String) (create : WrapperE) : ApiInfo :=
  if mapHas api.wrappers name then api
  else { api with wrappers := mapSet api.wrappers name create }

/-- Embeds the registration side of `ApiInfo.getListWrapper(ctype)`
(the returned Python name plays no role in the claims). -/
def ApiInfo.getListWrapperReg (api : ApiInfo) (ctype : CType) : ApiInfo :=
  api.createWrapperOnce ("_LIST_" ++ ctype.cName) (WrapperE.listWrapper ctype)

/-- Error-propagating map over a list, used where the TypeScript code
maps a throwing function over an array. -/
def mapExcept {α β : Type} (f : α → Except String β) : List α → Except String (List β)
  | [] => .ok []
  | a :: as =>
      match f a with
      | .error e => .error e
      | .ok b =>
          match mapExcept f as with
          | .error e => .error e
          | .ok bs => .ok (b :: bs)

/-- Embeds `onlyDefined`: keep the defined results. -/
def onlyDefined {α : Type} (items : List (Option α)) : List α :=
  items.filterMap id

/-! ### Enum extraction

`parseEnumEntry`, `convertEnumValuesToConstants`, `CEnum.mergeValues`
and `ApiInfo.findEnums` (`generate.ts`, latest revision lines
1998–2186 and 2335–2363). -/

/-- Embeds `pad(s, len, pad)`: left-pad by repeating the pad string
`max 0 (len - s.length)` times (`Nat` subtraction saturates exactly like
`Math.max(0, ...)`). -/
def pad (s : String) (len : Nat) (p : String) : String :=
  strRepeat p (len - s.data.length) ++ s

/-- Embeds `formatHexConstant(val)`: `0x` followed by the value's hex
digits left-padded with zeros to width 8. -/
def formatHexConstant (val : Int) : String :=
  "0x" ++ pad (intToHexJs val) 8 "0"

/-- Embeds `parseEnumEntry(parentName, entry)`: entries without `=` are
dropped; otherwise split at `=`, trim both sides, and strip the parent
enum prefix (and `_`) from the variant name. -/
def parseEnumEntry (parentName : String) (entry : String) : Option CEnumVal :=
  if jsIncludes entry "=" then
    match jsSplit entry '=' with
    | name :: val :: _ => some ⟨cleanup name parentName, jsTrim val⟩
    | _ => none
  else none

/-- Embeds the sibling-substitution loop of
`convertEnumValuesToConstants`: every occurrence of
`parentName_siblingName` in the value expression is replaced by the
sibling's (parenthesised) raw value string, iterating over all entries
in order. -/
def substSiblings (parentName : String) (entries : List CEnumVal) (val : String) : String :=
  entries.foldl
    (fun v e => jsReplaceAll v (parentName ++ "_" ++ e.name) ("(" ++ e.val ++ ")")) val

/-- Parses a bare nonnegative integer literal (decimal or `0x` hex),
with no surrounding junk; the empty string is not a literal. -/
def jsIntLiteral (s : String) : Option Nat :=
  if s == "" then none
  else if jsStartsWith s "0x" || jsStartsWith s "0X" then
    parseDigits hexDigitVal 16 (s.data.drop 2)
  else
    parseDigits decDigitVal 10 s.data

/-- Parses one `|`-separated piece of an enum value expression after
substitution: optional whitespace, an optionally parenthesised
nonnegative integer literal.  This is the literal grammar JavaScript
`eval` sees on the substituted expressions in scope. -/
def parseOrPiece (s : String) : Option Nat :=
  match (jsTrim s).data with
  | '(' :: rest =>
      match (trimChars rest).reverse with
      | ')' :: rev => jsIntLiteral ⟨trimChars rev.reverse⟩
      | _ => none
  | t => jsIntLiteral ⟨t⟩

/-- Splits an expression on `|` and parses every piece as a literal;
`none` when any piece fails (the expression is outside the pure
bitwise-OR-of-literals grammar). -/
def parseOrPieces (s : String) : Option (List Nat) :=
  (jsSplit s '|').mapM parseOrPiece

/-- Models JavaScript `eval` on the expressions that reach it here: a
single literal evaluates to itself; two or more `|`-separated literals
are folded left with the 32-bit OR.  Expressions outside this grammar
are `none`, modelled as an evaluation failure. -/
def jsEvalOrExpr (s : String) : Option Int :=
  match parseOrPieces s with
  | none => none
  | some [] => none
  | some [w] => some (w : Int)
  | some (w :: ws) => some (ws.foldl (fun a b => jsOr32 a (b : Int)) (w : Int))

/-- Embeds one iteration of the `convertEnumValuesToConstants` loop for
entry `e` of `entries`: a value that `Number` parses is reformatted as a
hex constant; otherwise sibling names are substituted and the result is
`eval`ed.  An expression the modelled `eval` cannot evaluate is an
error (the JavaScript `eval` would throw on it). -/
def convertOneEnumValue (parentName : String) (entries : List CEnumVal)
    (e : CEnumVal) : Except String CEnumVal :=
  match jsNumberNat e.val with
  | some n => .ok ⟨e.name, formatHexConstant (n : Int)⟩
  | none =>
      let v := substSiblings parentName entries e.val
      match jsEvalOrExpr v with
      | some i => .ok ⟨e.name, formatHexConstant i⟩
      | none => .error ("eval failed on enum entry " ++ e.name ++ ": " ++ v)

/-- Embeds `convertEnumValuesToConstants(parentName, entries)`. -/
def convertEnumValuesToConstants (parentName : String) (entries : List CEnumVal) :
    Except String (List CEnumVal) :=
  mapExcept (convertOneEnumValue parentName entries) entries

/-- Embeds the loop body of `CEnum.mergeValues`: each entry is appended
to `values`; entries other than the `Force32` sentinel are also appended
to `sanitized` with their name passed through `sanitizeIdent`.  Returns
the updated `(values, sanitized)` pair. -/
def mergeValuesStep (acc : List CEnumVal × List CEnumVal) (e : CEnumVal) :
    List CEnumVal × List CEnumVal :=
  (acc.1 ++ [e],
   if e.name != "Force32" then acc.2 ++ [⟨sanitizeIdent e.name, e.val⟩] else acc.2)

/-- Embeds `CEnum.mergeValues(values)` acting on the current
`(values, sanitized)` state. -/
def mergeValues (acc : List CEnumVal × List CEnumVal) (vs : List CEnumVal) :
    List CEnumVal × List CEnumVal :=
  vs.foldl mergeValuesStep acc

/-- Embeds the `CEnum` constructor: start with empty `values` and
`sanitized` and merge the given entries. -/
def mkCEnum (cName pyName : String) (vs : List CEnumVal) : CType :=
  let acc := mergeValues ([], []) vs
  CType.cenum cName pyName acc.1 acc.2 none

/-- Embeds the `SPECIAL_MERGED_ENUMS` table. -/
def SPECIAL_MERGED_ENUMS : List (String × String) :=
  [("WGPUNativeFeature", "WGPUFeatureName"), ("WGPUNativeSType", "WGPUSType")]

/-- Scanner step for the regex `typedef enum ([a-zA-Z0-9]*) \{([^\}]*)\}`
at the current position: the literal `typedef enum `, a greedy run of
ASCII alphanumerics (the name), the literal ` {`, a greedy run of
non-`}` characters (the body), and `}`.  Returns the two capture groups
and the remainder after the match. -/
def tryEnumMatchAt (l : List Char) : Option (String × String × List Char) :=
  if "typedef enum ".data.isPrefixOf l then
    let afterKw := l.drop 13
    let nm := afterKw.takeWhile Char.isAlphanum
    match afterKw.dropWhile Char.isAlphanum with
    | ' ' :: '\x7b' :: bodyStart =>
        let body := bodyStart.takeWhile (fun c => c != '\x7d')
        match bodyStart.dropWhile (fun c => c != '\x7d') with
        | '\x7d' :: rest => some (⟨nm⟩, ⟨body⟩, rest)
        | _ => none
    | _ => none
  else none

/-- Models `src.matchAll` with the enum regex: scan left to right,
restarting one character later after a failed attempt and after the end
of each match (matches do not overlap). -/
def scanTypedefEnums : Nat → List Char → List (String × String)
  | 0, _ => []
  | _ + 1, [] => []
  | fuel + 1, c :: rest =>
      match tryEnumMatchAt (c :: rest) with
      | some (nm, body, rest') => (nm, body) :: scanTypedefEnums fuel rest'
      | none => scanTypedefEnums fuel rest

/-- Embeds the per-match body of `ApiInfo.findEnums`: parse the entries,
normalise the values to hex constants, and either merge into the special
target enum or register a fresh `CEnum`. -/
def findEnumsStep (api : ApiInfo) (nameRaw body : String) : Except String ApiInfo :=
  let entries0 :=
    onlyDefined (((jsSplit (jsReplaceAll body "\n" " ") ',').map
      (parseEnumEntry (jsTrim nameRaw))))
  let cName := jsTrim nameRaw
  let targetName := mapGet SPECIAL_MERGED_ENUMS cName
  match convertEnumValuesToConstants cName entries0 with
  | .error e => .error e
  | .ok entries =>
      match targetName with
      | some target =>
          match mapGet api.types target with
          | some (CType.cenum tc tp tvals tsan tflag) =>
              let fixedEntries := entries.map (fun e =>
                match jsSplit e.name '_' with
                | _a :: b :: _ => (⟨b, e.val⟩ : CEnumVal)
                | a :: _ => ⟨a, e.val⟩
                | [] => ⟨e.name, e.val⟩)
              let acc := mergeValues (tvals, tsan) fixedEntries
              let newTypes := mapSet api.types target (CType.cenum tc tp acc.1 acc.2 tflag)
              .ok { api with types := newTypes }
          | _ =>
              .error ("special merged enum target is not a registered enum: " ++ target)
      | none =>
          let newTypes := mapSet api.types cName (mkCEnum cName (toPyName cName true) entries)
          .ok { api with types := newTypes }

/-- Embeds `ApiInfo.findEnums(src)`: run the scanner over the source and
process every match in order. -/
def findEnums (api : ApiInfo) (src : String) : Except String ApiInfo :=
  (scanTypedefEnums (src.data.length + 1) src.data).foldl
    (fun acc m =>
      match acc with
      | .error e => .error e
      | .ok a => findEnumsStep a m.1 m.2)
    (.ok api)

/-! ### Type references and typed identifiers -/

/-- Embeds `parseTypeRef(ref)`: fold over the space-separated parts of
the trimmed reference, collecting qualifiers; any other part becomes the
inner type name.  A pointer to a `WGPUChainedStruct...` type is forced
nullable. -/
def parseTypeRef (ref : String) : Refinfo :=
  let info := (jsSplit (jsTrim ref) ' ').foldl
    (fun (info : Refinfo) part =>
      if part == "WGPU_NULLABLE" then { info with nullable := some true }
      else if part == "const" then { info with constant := some true }
      else if part == "*" then { info with explicitPointer := some true }
      else if part == "struct" then info
      else { info with inner := part })
    { inner := "unknown" }
  if info.explicitPointer == some true && jsStartsWith info.inner "WGPUChainedStruct" then
    { info with nullable := some true }
  else info

/-- Character class `[A-Za-z0-9_]` of the trailing-identifier group in
`parseTypedIdent`. -/
def isIdentChar (c : Char) : Bool := c.isAlphanum || c == '_'

/-- Embeds `parseTypedIdent(entry)` and its regex
`/(.*) ([A-Za-z0-9_]+)$/`: the name is the maximal trailing run of
identifier characters, which must be non-empty and preceded by a space;
everything before that space is the type reference.  A non-matching
entry throws `Unable to parse`. -/
def parseTypedIdent (entry : String) : Except String FieldPair :=
  let rev := entry.data.reverse
  let identRev := rev.takeWhile isIdentChar
  match identRev, rev.dropWhile isIdentChar with
  | [], _ => .error ("Unable to parse: \"" ++ entry ++ "\"")
  | _ :: _, ' ' :: restRev =>
      .ok ⟨⟨identRev.reverse⟩, parseTypeRef ⟨restRev.reverse⟩⟩
  | _, _ => .error ("Unable to parse: \"" ++ entry ++ "\"")

/-! ### Field classification (`isPluralOf`, `areListField`,
`ApiInfo._createField` and the `_addStruct` classification loop) -/

/-- Embeds `isPluralOf(query, thing)`: `query` is `thing` + `"s"`, or
`thing` ends in `"y"` and `query` is `thing` with the `"y"` replaced by
`"ies"`. -/
def isPluralOf (query thing : String) : Bool :=
  if query == thing ++ "s" then true
  else if jsEndsWith thing "y" && query == dropRightStr thing 1 ++ "ies" then true
  else false

/-- Embeds the `isCount` lambda inside `areListField`: the name ends in
`Count` and the declared inner type is `size_t`. -/
def isCountField (f : FieldPair) : Bool :=
  jsEndsWith f.name "Count" && f.type.inner == "size_t"

/-- Embeds the capture of `/^(.*)Count$/` on a name: the part before
the trailing `Count` when the name ends with it. -/
def matchCountPre (s : String) : Option String :=
  if jsEndsWith s "Count" then some ⟨s.data.take (s.data.length - 5)⟩ else none

/-- Embeds the tail of `areListField` once the count field `c` and the
candidate array field `l` are fixed: extract the prefix before `Count`
and require the array field's name to be a recognised plural of it. -/
def checkListPair (c l : FieldPair) : Option (FieldPair × FieldPair) :=
  match matchCountPre c.name with
  | none => none
  | some pre => if isPluralOf l.name pre then some (c, l) else none

/-- Embeds `areListField(f0, f1)` (`generate.ts` latest revision lines
2219–2243): when either adjacent field is a count field (the
idiosyncratic `(field, count)` order is swapped into `(count, field)`),
check the plural naming relation; otherwise no fusion. -/
def areListField (f0 f1 : FieldPair) : Option (FieldPair × FieldPair) :=
  if isCountField f0 then checkListPair f0 f1
  else if isCountField f1 then checkListPair f1 f0
  else none

/-- Embeds `ApiInfo._createField(name, ref, parent)`: explicit pointers
and opaque types become `PointerField` (with `nullable ?? false`), the
rest `ValueField`. -/
def ApiInfo.createField (api : ApiInfo) (name : String) (ref : Refinfo)
    (parent : String) : CStructField :=
  let type := api.getType ref
  if ref.explicitPointer == some true || type.kind == "opaque" then
    CStructField.pointerField name type (ref.nullable.getD false)
  else
    CStructField.valueField name type parent

/-- Condition of the callback+userdata fusion branch in `_addStruct`:
the current name ends (case-insensitively) in `callback` and the next
name in `userdata`. -/
def isCallbackPair (f0 f1 : FieldPair) : Bool :=
  jsEndsWith (jsToLowerCase f0.name) "callback"
    && jsEndsWith (jsToLowerCase f1.name) "userdata"

/-- Embeds the field-classification `while` loop of
`ApiInfo._addStruct`: greedy, order-sensitive fusion of adjacent raw
fields into `ArrayField` / `CallbackField` units, everything else a
single field; the `ArrayField` branch also registers the list wrapper
(a registry mutation, hence the threaded `ApiInfo`). -/
def structFieldsLoop (api : ApiInfo) (cName : String) :
    List FieldPair → List CStructField × ApiInfo
  | [] => ([], api)
  | [f] => ([api.createField f.name f.type cName], api)
  | f0 :: f1 :: rest =>
      match areListField f0 f1 with
      | some (countField, listField) =>
          let innerCType := api.getType listField.type
          let api' := api.getListWrapperReg innerCType
          let res := structFieldsLoop api' cName rest
          (CStructField.arrayField listField.name countField.name innerCType :: res.1,
           res.2)
      | none =>
          if isCallbackPair f0 f1 then
            let res := structFieldsLoop api cName rest
            (CStructField.callbackField f0.name f1.name (api.getType f0.type) :: res.1,
             res.2)
          else
            let fld := api.createField f0.name f0.type cName
            let res := structFieldsLoop api cName (f1 :: rest)
            (fld :: res.1, res.2)

/-- Embeds the `SPECIAL_CLASSES` set. -/
def SPECIAL_CLASSES : List String := ["WGPUChainedStruct", "WGPUChainedStructOut"]

/-- Embeds `ApiInfo._addStruct(cdef, cName, body)`: split the body on
`;`, parse each non-blank line as a typed identifier, classify the raw
fields, and register the `CStruct`. -/
def ApiInfo.addStruct (api : ApiInfo) (cdef cName body : String) :
    Except String ApiInfo :=
  let lines := (jsSplit body ';').filter (fun l => (jsTrim l).data.length > 0)
  match mapExcept (fun l => parseTypedIdent (jsTrim l)) lines with
  | .error e => .error e
  | .ok rawFields =>
      let res := structFieldsLoop api cName rawFields
      let noEmit := SPECIAL_CLASSES.contains cName
      let api' := res.2
      let newTypes :=
        mapSet api'.types cName (CType.cstruct cName (toPyName cName true) cdef res.1 noEmit)
      .ok { api' with types := newTypes }

/-! ### Exported functions (`ApiInfo._parseFuncArgs`,
`_parseFuncReturn`, `_findFuncParent`, `_addFunc`) -/

/-- Embeds the `FORCE_NULLABLE_ARGS` set (`codegen/patches.ts`). -/
def FORCE_NULLABLE_ARGS : List String := ["wrappedSubmissionIndex"]

/-- Embeds `ApiInfo._parseFuncArgs(argStr)`: an empty or `void`
parameter list is a zero-argument function; otherwise split on commas
and parse each typed identifier (which may throw). -/
def ApiInfo.parseFuncArgs (api : ApiInfo) (argStr : String) :
    Except String (List FuncArg) :=
  let argStr := jsTrim argStr
  if argStr == "" || argStr == "void" then .ok []
  else
    mapExcept
      (fun ident =>
        match parseTypedIdent ident with
        | .error e => .error e
        | .ok fp =>
            .ok (FuncArg.mk fp.name (api.getTypeStr fp.type.inner)
              (fp.type.explicitPointer == some true)
              (fp.type.constant == some true)
              (fp.type.nullable == some true || FORCE_NULLABLE_ARGS.contains fp.name)))
      (jsSplit argStr ',')

/-- Embeds `ApiInfo._parseFuncReturn(returnType)`. -/
def ApiInfo.parseFuncReturn (api : ApiInfo) (returnType : String) : FuncArg :=
  if returnType == "void" then
    FuncArg.mk "return" (api.getTypeStr "void") false false false
  else
    let info := parseTypeRef returnType
    FuncArg.mk "return" (api.getTypeStr info.inner)
      (info.explicitPointer == some true) (info.constant == some true) false

/-- Embeds `ApiInfo._findFuncParent(args)`: the registry entry under the
first argument's type name, when there is a first argument. -/
def ApiInfo.findFuncParent (api : ApiInfo) (args : List FuncArg) : Option CType :=
  match args with
  | [] => none
  | a :: _ => mapGet api.types a.ctype.cName

/-- Embeds `COpaque.addFunc(func)`: the Python name is the function name
with the handle's C name stripped case-insensitively and the first
letter lowered; `release` and `reference` are renamed `_release` and
`_reference`; the function is stored in the member map under that
name. -/
def opaqueAddFunc (cName : String) (funcs : List (String × CFunc)) (func : CFunc) :
    List (String × CFunc) :=
  let pyFname := toPyName (removePreCI func.name cName) false
  let pyFname :=
    if pyFname == "release" || pyFname == "reference" then "_" ++ pyFname else pyFname
  mapSet funcs pyFname func

/-- Models the interpolation `${args}` in the `signature` template
string: JavaScript stringifies an array of objects as
`[object Object]` entries joined by commas. -/
def jsArgsString (args : List FuncArg) : String :=
  joinWith "," (args.map (fun _ => "[object Object]"))

/-- Embeds `ApiInfo._addFunc(name, argStr, returnType)`: parse the
arguments and return type, then attribute the function to the parent
found under its first argument's type when that parent has an `addFunc`
method (only `COpaque` has one); otherwise append it to the loose
function list. -/
def ApiInfo.addFunc (api : ApiInfo) (name argStr returnType : String) :
    Except String ApiInfo :=
  match api.parseFuncArgs argStr with
  | .error e => .error e
  | .ok args =>
      let ret := api.parseFuncReturn returnType
      let signature := returnType ++ " " ++ name ++ "(" ++ jsArgsString args ++ ")"
      let func := CFunc.mk name signature args ret
      match args, api.findFuncParent args with
      | a :: _, some (CType.cOpaque pc pp pfuncs) =>
          let newTypes := mapSet api.types a.ctype.cName
            (CType.cOpaque pc pp (opaqueAddFunc pc pfuncs func))
          .ok { api with types := newTypes }
      | _, _ =>
          .ok { api with looseFuncs := api.looseFuncs ++ [func] }

/-- Embeds the failure check of `COpaque.emit(api)`: the member map must
contain both `_reference` and `_release`, otherwise generation aborts
with an error naming the handle.  The Python class text built on the
success path is elided (building it raises no errors); the check is the
sole failure path of `emit`. -/
def opaqueEmitCheck (cName : String) (funcs : List (String × CFunc)) :
    Except String Unit :=
  match mapGet funcs "_reference", mapGet funcs "_release" with
  | some _, some _ => .ok ()
  | _, _ => .error ("Opaque " ++ cName ++ " missing reference or release!")

/-! ### Lexical cleanup (`codegen/extract_docs.ts` lines 133–181:
`discardProcs`, `deleteStrings`, `cleanHeader`) -/

/-- The skip-region marker token. -/
def SKIP_MARKER : String := "WGPU_SKIP_PROCS"

/-- Scans for the closing skip marker: `some rest` is the line list
after the first marker line, `none` means the scan ran off the end of
the input. -/
def skipToMarker : List String → Option (List String)
  | [] => none
  | l :: rest => if jsIncludes l SKIP_MARKER then some rest else skipToMarker rest

/-- Embeds `discardProcs(state)`: throws when the current line does not
hold the start marker; otherwise advances past lines until the closing
marker.  `ok (some rest)` resumes after the closing marker line,
`ok none` means the scan consumed the remainder of the input and
returned without error. -/
def discardProcs : List String → Except String (Option (List String))
  | [] => .error "Discard procs called at wrong position"
  | l :: rest =>
      if jsIncludes l SKIP_MARKER then .ok (skipToMarker rest)
      else .error "Discard procs called at wrong position"

/-- Embeds `deleteStrings(line, deletions)`. -/
def deleteStrings (line : String) (deletions : List String) : String :=
  deletions.foldl (fun l d => jsReplaceAll l d "") line

/-- Embeds the `while` loop of `cleanHeader`: walk the lines, routing
skip regions through `discardProcs`, dropping `#` directives and the
`extern "C"` wrapper, and keeping every other line with the deletions
applied.  Fueled (any fuel above the number of lines is enough). -/
def cleanHeaderLines (deletions : List String) : Nat → List String → Except String (List String)
  | 0, _ => .error "fuel exhausted"
  | _ + 1, [] => .ok []
  | fuel + 1, rawline :: rest =>
      let line := jsTrim rawline
      if jsIncludes line SKIP_MARKER then
        match discardProcs (rawline :: rest) with
        | .error e => .error e
        | .ok none => .ok []
        | .ok (some rest') => cleanHeaderLines deletions fuel rest'
      else if jsStartsWith line "#" then cleanHeaderLines deletions fuel rest
      else if jsIncludes line "extern \"C\"" then cleanHeaderLines deletions fuel rest
      else
        match cleanHeaderLines deletions fuel rest with
        | .error e => .error e
        | .ok out => .ok (deleteStrings rawline deletions :: out)

/-- Models the final `replaceAll(/\n[\n]+/g, "\n\n")`: every run of two
or more newlines collapses to exactly two. -/
def collapseNewlines : Nat → List Char → List Char
  | 0, l => l
  | _ + 1, [] => []
  | fuel + 1, '\n' :: '\n' :: rest =>
      '\n' :: '\n' :: collapseNewlines fuel (rest.dropWhile (fun c => c == '\n'))
  | fuel + 1, c :: rest => c :: collapseNewlines fuel rest

/-- Embeds `cleanHeader(src, deletions)`: normalise line endings, split
into lines, run the cleanup loop, re-join and collapse blank runs. -/
def cleanHeader (src : String) (deletions : List String) : Except String String :=
  let lines := jsSplit (jsReplaceAll src "\r" "") '\n'
  match cleanHeaderLines deletions (lines.length + 1) lines with
  | .error e => .error e
  | .ok frags =>
      let joined := joinWith "\n" frags
      .ok ⟨collapseNewlines (joined.data.length + 1) joined.data⟩

/-! ### Semantics of the emitted flags wrapper class

`CFlags.emit` (`generate.ts` latest revision lines 2061–2100) emits a
fixed Python class template per flags type.  The claims about it concern
the behaviour of that emitted class, so the template's `__init__`,
`__int__` and `__iter__` are transcribed here over the numeric variant
values of the underlying `IntEnum` (Python enum members with equal
values are aliases of one member, so a member is identified with its
numeric value; `for v in Enum` iterates in declaration order). -/

/-- Transcribes `__init__` for a list argument: `sum(set(flags))`, the
sum of the distinct member values. -/
def flagsInitValue (flags : List Nat) : Nat := flags.dedup.sum

/-- Transcribes `__int__`: the stored value. -/
def flagsToInt (value : Nat) : Nat := value

/-- Transcribes `__iter__` over the declared members `enumMembers` (in
declaration order): a zero value yields the member constructed by
`Enum(0)` — which raises when no member has value 0, modelled as
`none` — and a nonzero value yields every member whose value overlaps
it. -/
def flagsIter (enumMembers : List Nat) (value : Nat) : Option (List Nat) :=
  if value == 0 then
    if enumMembers.contains 0 then some [0] else none
  else
    some (enumMembers.filter (fun v => value &&& v > 0))

/-! ### Auxiliary definitions used by the theorems below -/

/-- Does the string start with an ASCII digit? -/
def startsWithDigit (s : String) : Bool :=
  match s.data with
  | [] => false
  | c :: _ => c.isDigit

/-- Sanitized (emitted) variant list of an enum descriptor. -/
def CType.sanitizedVals : CType → List CEnumVal
  | .cenum _ _ _ s _ => s
  | _ => []

/-- Sample registry: the seeded registry plus one registered opaque
handle, as `findOpaquePointers` would register it. -/
def apiWithDevice : ApiInfo :=
  { apiInit with
      types := mapSet apiInit.types "WGPUDevice" (CType.cOpaque "WGPUDevice" "Device" []) }

/-- Sample registry: the seeded registry plus one registered struct
descriptor, as `_addStruct` would register it. -/
def apiWithStruct : ApiInfo :=
  { apiInit with
      types := mapSet apiInit.types "WGPUExtent3D"
        (CType.cstruct "WGPUExtent3D" "Extent3D" "typedef struct WGPUExtent3D" [] false) }

/-- Placeholder member function value for witness registries. -/
def dummyFunc (n : String) : CFunc :=
  CFunc.mk n (n ++ "-sig") [] (FuncArg.mk "return" unknownType false false false)

/-- Registry state with the `types` map replaced (record-update helper
used in theorem statements). -/
def withTypes (api : ApiInfo) (t : List (String × CType)) : ApiInfo :=
  { api with types := t }

/-- Registry state with the `looseFuncs` list replaced (record-update
helper used in theorem statements). -/
def withLoose (api : ApiInfo) (l : List CFunc) : ApiInfo :=
  { api with looseFuncs := l }

/-- The `CFunc` value that `ApiInfo._addFunc` builds for a parsed
function: its signature template interpolates the argument array. -/
def mkParsedFunc (api : ApiInfo) (name returnType : String) (args : List FuncArg) : CFunc :=
  CFunc.mk name (returnType ++ " " ++ name ++ "(" ++ jsArgsString args ++ ")")
    args (api.parseFuncReturn returnType)

/-- The concrete header text of claim C5. -/
def compareFunctionHeader : String :=
  "typedef enum WGPUCompareFunction \x7b WGPUCompareFunction_Never = 0x00000001, WGPUCompareFunction_Force32 = 0x7FFFFFFF \x7d WGPUCompareFunction;"

/-! ### Specification-side predicates

These two predicates transcribe the specification's wording of the
fusion rule (§3 / §8 of the spec), to be compared with the embedded
`areListField`. -/

/-- Spec wording of a recognised plural: append `"s"`, or a trailing
`"y"` replaced by `"ies"`. -/
def pluralSpec (query thing : String) : Prop :=
  query = thing ++ "s" ∨ ∃ r, thing = r ++ "y" ∧ query = r ++ "ies"

/-- Spec wording of the fusion condition on an adjacent field pair: one
of the two is named `<prefix>Count` with declared type `size_t`, and the
other field's name is a recognised plural of `<prefix>`, in either
order. -/
def fusionSpec (f0 f1 : FieldPair) : Prop :=
  ∃ p : String,
    (f0.name = p ++ "Count" ∧ f0.type.inner = "size_t" ∧ pluralSpec f1.name p)
    ∨ (f1.name = p ++ "Count" ∧ f1.type.inner = "size_t" ∧ pluralSpec f0.name p)

/-! ### Support lemmas about the string model -/

theorem jsEndsWith_iff (s t : String) :
    jsEndsWith s t = true ↔ ∃ p : String, s = p ++ t := by
  unfold jsEndsWith
  rw [List.isSuffixOf_iff_suffix]
  constructor
  · rintro ⟨u, hu⟩
    refine ⟨⟨u⟩, String.ext ?_⟩
    rw [String.data_append]
    exact hu.symm
  · rintro ⟨p, rfl⟩
    exact ⟨p.data, (String.data_append p t).symm⟩

theorem append_right_cancel_str {p p' t : String} (h : p ++ t = p' ++ t) : p = p' := by
  apply String.ext
  exact List.append_cancel_right
    (show p.data ++ t.data = p'.data ++ t.data by
      rw [← String.data_append, ← String.data_append, h])

theorem take_append_len (p t : List Char) :
    (p ++ t).take ((p ++ t).length - t.length) = p := by
  have h : (p ++ t).length - t.length = p.length := by
    simp [List.length_append]
  rw [h]
  exact List.take_left p t

theorem matchCountPre_eq (p : String) : matchCountPre (p ++ "Count") = some p := by
  unfold matchCountPre
  rw [if_pos ((jsEndsWith_iff _ _).2 ⟨p, rfl⟩)]
  congr 1
  apply String.ext
  show (p ++ "Count").data.take ((p ++ "Count").data.length - 5) = p.data
  have h5 : (5 : Nat) = ("Count" : String).data.length := rfl
  rw [String.data_append, h5]
  exact take_append_len p.data ("Count" : String).data

theorem dropRightStr_y (r : String) : dropRightStr (r ++ "y") 1 = r := by
  unfold dropRightStr
  apply String.ext
  show (r ++ "y").data.take ((r ++ "y").data.length - 1) = r.data
  have h1 : (1 : Nat) = ("y" : String).data.length := rfl
  rw [String.data_append, h1]
  exact take_append_len r.data ("y" : String).data

theorem last_char_append (s t : String) (c : Char) (h : t.data.getLast? = some c) :
    (s ++ t).data.getLast? = some c := by
  rw [String.data_append, List.getLast?_append_of_ne_nil]
  · exact h
  · intro hn
    rw [hn] at h
    simp at h

theorem append_s_ne_append_count (a p : String) (h : a ++ "s" = p ++ "Count") :
    False := by
  have h1 : (a ++ "s").data.getLast? = some 's' := last_char_append a "s" 's' rfl
  have h2 : (p ++ "Count").data.getLast? = some 't' :=
    last_char_append p "Count" 't' rfl
  rw [h, h2] at h1
  simp at h1

theorem pluralSpec_ends_s {q p : String} (h : pluralSpec q p) :
    ∃ a : String, q = a ++ "s" := by
  rcases h with h | ⟨r, _, hq⟩
  · exact ⟨p, h⟩
  · refine ⟨r ++ "ie", String.ext ?_⟩
    rw [hq]
    show r.data ++ ("ies" : String).data = (r ++ "ie").data ++ ("s" : String).data
    rw [String.data_append]
    simp

theorem isPluralOf_iff (q p : String) : isPluralOf q p = true ↔ pluralSpec q p := by
  unfold isPluralOf
  by_cases hs : q = p ++ "s"
  · simp [hs, pluralSpec]
  · have hbs : (q == p ++ "s") = false := by
      simp [hs]
    rw [hbs]
    simp only [if_false, Bool.false_eq_true]
    by_cases hy : ∃ r, p = r ++ "y"
    · rcases hy with ⟨r, rfl⟩
      have hey : jsEndsWith (r ++ "y") "y" = true := (jsEndsWith_iff _ _).2 ⟨r, rfl⟩
      rw [hey, dropRightStr_y]
      by_cases hq : q = r ++ "ies"
      · simp only [hq, beq_self_eq_true, Bool.and_true, if_true]
        constructor
        · intro _
          exact Or.inr ⟨r, rfl, rfl⟩
        · intro _
          trivial
      · have : (q == r ++ "ies") = false := by simp [hq]
        rw [this]
        simp only [Bool.true_and, Bool.false_eq_true, if_false]
        constructor
        · intro h
          exact absurd h (by simp)
        · rintro (h | ⟨r', hr', hq'⟩)
          · exact absurd h hs
          · have : r' = r := append_right_cancel_str hr'.symm
            rw [this] at hq'
            exact absurd hq' hq
    · have hey : jsEndsWith p "y" = false := by
        rw [← Bool.not_eq_true, jsEndsWith_iff]
        rintro ⟨r, hr⟩
        exact hy ⟨r, hr⟩
      rw [hey]
      simp only [Bool.false_and, Bool.false_eq_true, if_false]
      constructor
      · intro h
        exact absurd h (by simp)
      · rintro (h | ⟨r, hr, _⟩)
        · exact absurd h hs
        · exact hy ⟨r, hr⟩

theorem isCountField_iff (f : FieldPair) :
    isCountField f = true ↔ (∃ p, f.name = p ++ "Count") ∧ f.type.inner = "size_t" := by
  unfold isCountField
  rw [Bool.and_eq_true_iff, jsEndsWith_iff, beq_iff_eq]

theorem areListField_isSome_iff (f0 f1 : FieldPair) :
    (areListField f0 f1).isSome = true ↔ fusionSpec f0 f1 := by
  unfold areListField
  by_cases h0 : isCountField f0 = true
  · rw [if_pos h0]
    obtain ⟨⟨p, hp⟩, hi⟩ := (isCountField_iff f0).1 h0
    unfold checkListPair
    rw [hp, matchCountPre_eq]
    show (if isPluralOf f1.name p = true then some (f0, f1) else none).isSome = true
      ↔ fusionSpec f0 f1
    by_cases hpl : isPluralOf f1.name p = true
    · rw [if_pos hpl]
      simp only [Option.isSome_some, true_iff]
      exact ⟨p, Or.inl ⟨hp, hi, (isPluralOf_iff _ _).1 hpl⟩⟩
    · rw [if_neg hpl]
      simp only [Option.isSome_none, Bool.false_eq_true, false_iff]
      rintro ⟨p₂, ⟨hn2, _, hpl2⟩ | ⟨_, _, hpl2⟩⟩
      · have hpp : p₂ = p := append_right_cancel_str (hn2.symm.trans hp)
        rw [hpp] at hpl2
        exact hpl ((isPluralOf_iff _ _).2 hpl2)
      · obtain ⟨a, ha⟩ := pluralSpec_ends_s hpl2
        exact append_s_ne_append_count a p (ha.symm.trans hp)
  · rw [if_neg h0]
    by_cases h1 : isCountField f1 = true
    · rw [if_pos h1]
      obtain ⟨⟨p, hp⟩, hi⟩ := (isCountField_iff f1).1 h1
      unfold checkListPair
      rw [hp, matchCountPre_eq]
      show (if isPluralOf f0.name p = true then some (f1, f0) else none).isSome = true
        ↔ fusionSpec f0 f1
      by_cases hpl : isPluralOf f0.name p = true
      · rw [if_pos hpl]
        simp only [Option.isSome_some, true_iff]
        exact ⟨p, Or.inr ⟨hp, hi, (isPluralOf_iff _ _).1 hpl⟩⟩
      · rw [if_neg hpl]
        simp only [Option.isSome_none, Bool.false_eq_true, false_iff]
        rintro ⟨p₂, ⟨hn2, hi2, _⟩ | ⟨hn2, _, hpl2⟩⟩
        · exact h0 ((isCountField_iff f0).2 ⟨⟨p₂, hn2⟩, hi2⟩)
        · have hpp : p₂ = p := append_right_cancel_str (hn2.symm.trans hp)
          rw [hpp] at hpl2
          exact hpl ((isPluralOf_iff _ _).2 hpl2)
    · rw [if_neg h1]
      simp only [Option.isSome_none, Bool.false_eq_true, false_iff]
      rintro ⟨p₂, ⟨hn2, hi2, _⟩ | ⟨hn2, hi2, _⟩⟩
      · exact h0 ((isCountField_iff f0).2 ⟨⟨p₂, hn2⟩, hi2⟩)
      · exact h1 ((isCountField_iff f1).2 ⟨⟨p₂, hn2⟩, hi2⟩)

/-! ### Claim C1 -/

/-- Claim C1 counterexample: the claim states that ANY adjacent pair not
satisfying the count/plural condition is left as two independent
un-fused units, but a pair whose first field name ends in `callback` and
second in `userdata` does not satisfy that condition (`areListField`
rejects it) and is nevertheless fused by the struct classification loop
into a single `CallbackField` unit. -/
theorem claim_C1_counterexample :
    areListField ⟨"bufferCallback", { inner := "WGPUBufferCallback" }⟩
        ⟨"userdata", { inner := "void", explicitPointer := some true }⟩ = none
    ∧ structFieldsLoop apiInit "WGPUBufferMapInfo"
        [⟨"bufferCallback", { inner := "WGPUBufferCallback" }⟩,
         ⟨"userdata", { inner := "void", explicitPointer := some true }⟩]
      = ([CStructField.callbackField "bufferCallback" "userdata" unknownType], apiInit) :=
  ⟨rfl, rfl⟩

/-- Claim C1 (amended): for every struct body parsed by the struct
extractor, two adjacent raw fields are fused into a single `ArrayField`
unit if and only if one of the two has a name of the form
`<prefix>Count` with declared type `size_t` and the other field's name
is a recognised plural of `<prefix>` (append `"s"`, or `"y"` replaced by
`"ies"`), regardless of which of the two fields comes first; an adjacent
pair not satisfying this is left as two independent un-fused units
unless its names end (case-insensitively) in `callback` and `userdata`
respectively, in which case it is fused into a single `CallbackField`
unit. -/
theorem claim_C1_amended (f0 f1 : FieldPair) :
    ((areListField f0 f1).isSome = true ↔ fusionSpec f0 f1)
    ∧ (∀ (api : ApiInfo) (cName : String),
        ¬ fusionSpec f0 f1 → isCallbackPair f0 f1 = false →
        structFieldsLoop api cName [f0, f1]
          = ([api.createField f0.name f0.type cName,
              api.createField f1.name f1.type cName], api)) := by
  refine ⟨areListField_isSome_iff f0 f1, ?_⟩
  intro api cName hnf hcb
  have hnone : areListField f0 f1 = none := by
    rcases h : areListField f0 f1 with _ | v
    · rfl
    · exact absurd ((areListField_isSome_iff f0 f1).1 (by rw [h]; rfl)) hnf
  simp [structFieldsLoop, hnone, hcb]

/-- Claim C1 witness: the spec's own example `entryCount` followed by
`items` ("items" is not a plural of "entry") stays two independent
units, while `itemCount`/`items` fuses in both physical orders. -/
theorem claim_C1_amended_witness :
    structFieldsLoop apiInit "WGPUBindGroupDescriptor"
        [⟨"entryCount", { inner := "size_t" }⟩, ⟨"items", { inner := "WGPUThing" }⟩]
      = ([CStructField.valueField "entryCount" (CType.prim "size_t" "int")
            "WGPUBindGroupDescriptor",
          CStructField.valueField "items" unknownType "WGPUBindGroupDescriptor"],
         apiInit)
    ∧ (areListField ⟨"itemCount", { inner := "size_t" }⟩
        ⟨"items", { inner := "WGPUThing" }⟩).isSome = true
    ∧ (areListField ⟨"items", { inner := "WGPUThing" }⟩
        ⟨"itemCount", { inner := "size_t" }⟩).isSome = true := by
  have h := claim_C1_amended ⟨"entryCount", { inner := "size_t" }⟩
    ⟨"items", { inner := "WGPUThing" }⟩
  have hnf : ¬ fusionSpec ⟨"entryCount", { inner := "size_t" }⟩
      ⟨"items", { inner := "WGPUThing" }⟩ := by
    intro hf
    exact absurd (h.1.2 hf) (by decide)
  refine ⟨h.2 apiInit "WGPUBindGroupDescriptor" hnf (by decide), ?_, ?_⟩
  · exact (claim_C1_amended ⟨"itemCount", { inner := "size_t" }⟩
      ⟨"items", { inner := "WGPUThing" }⟩).1.2 ⟨"item", Or.inl ⟨rfl, rfl, Or.inl rfl⟩⟩
  · exact (claim_C1_amended ⟨"items", { inner := "WGPUThing" }⟩
      ⟨"itemCount", { inner := "size_t" }⟩).1.2 ⟨"item", Or.inr ⟨rfl, rfl, Or.inl rfl⟩⟩

/-! ### Claim C2 -/

theorem containsSub_append_self (pat b : List Char) :
    containsSub pat (pat ++ b) = true := by
  cases pat with
  | nil => cases b <;> rfl
  | cons p ps =>
      have hp : (p :: ps).isPrefixOf ((p :: ps) ++ b) = true := by
        rw [List.isPrefixOf_iff_prefix]
        exact ⟨b, rfl⟩
      show ((p :: ps).isPrefixOf ((p :: ps) ++ b) || containsSub (p :: ps) (ps ++ b)) = true
      rw [hp, Bool.true_or]

theorem containsSub_mid (pat a b : List Char) :
    containsSub pat (a ++ pat ++ b) = true := by
  induction a with
  | nil => simpa using containsSub_append_self pat b
  | cons c r ih =>
      show (pat.isPrefixOf (c :: (r ++ pat ++ b)) || containsSub pat (r ++ pat ++ b)) = true
      rw [ih, Bool.or_true]

theorem jsIncludes_mid (a s b : String) : jsIncludes (a ++ s ++ b) s = true := by
  unfold jsIncludes
  have h : (a ++ s ++ b).data = a.data ++ s.data ++ b.data := by
    rw [String.data_append, String.data_append]
  rw [h]
  exact containsSub_mid s.data a.data b.data

/-- Claim C2: if an opaque handle's attributed member-function map
contains a release function (stored under `_release` by
`COpaque.addFunc`) but no reference function (key `_reference`), or vice
versa, then emitting the handle aborts with an error whose message
contains the handle's type name; when both are present, no such error is
raised. -/
theorem claim_C2 (cName : String) (funcs : List (String × CFunc)) :
    ((mapGet funcs "_release").isSome = true → (mapGet funcs "_reference").isSome = false →
      opaqueEmitCheck cName funcs
        = .error ("Opaque " ++ cName ++ " missing reference or release!")
        ∧ jsIncludes ("Opaque " ++ cName ++ " missing reference or release!") cName = true)
    ∧ ((mapGet funcs "_reference").isSome = true → (mapGet funcs "_release").isSome = false →
      opaqueEmitCheck cName funcs
        = .error ("Opaque " ++ cName ++ " missing reference or release!")
        ∧ jsIncludes ("Opaque " ++ cName ++ " missing reference or release!") cName = true)
    ∧ ((mapGet funcs "_reference").isSome = true → (mapGet funcs "_release").isSome = true →
      opaqueEmitCheck cName funcs = .ok ()) := by
  unfold opaqueEmitCheck
  refine ⟨?_, ?_, ?_⟩
  · intro hrel href
    rcases h1 : mapGet funcs "_reference" with _ | r
    · rcases h2 : mapGet funcs "_release" with _ | l
      · exact ⟨rfl, jsIncludes_mid "Opaque " cName " missing reference or release!"⟩
      · exact ⟨rfl, jsIncludes_mid "Opaque " cName " missing reference or release!"⟩
    · rw [h1] at href
      exact absurd href (by simp)
  · intro href hrel
    rcases h1 : mapGet funcs "_reference" with _ | r
    · rw [h1] at href
      exact absurd href (by simp)
    · rcases h2 : mapGet funcs "_release" with _ | l
      · exact ⟨rfl, jsIncludes_mid "Opaque " cName " missing reference or release!"⟩
      · rw [h2] at hrel
        exact absurd hrel (by simp)
  · intro href hrel
    rcases h1 : mapGet funcs "_reference" with _ | r
    · rw [h1] at href
      exact absurd href (by simp)
    · rcases h2 : mapGet funcs "_release" with _ | l
      · rw [h2] at hrel
        exact absurd hrel (by simp)
      · rfl

/-- Claim C2 witness: a handle with only a release member and a handle
with only a reference member abort with the message naming them; a
handle with both emits without error. -/
theorem claim_C2_witness :
    opaqueEmitCheck "WGPUDevice" [("_release", dummyFunc "wgpuDeviceRelease")]
      = .error "Opaque WGPUDevice missing reference or release!"
    ∧ opaqueEmitCheck "WGPUAdapter" [("_reference", dummyFunc "wgpuAdapterReference")]
      = .error "Opaque WGPUAdapter missing reference or release!"
    ∧ opaqueEmitCheck "WGPUQueue"
        [("_reference", dummyFunc "wgpuQueueReference"),
         ("_release", dummyFunc "wgpuQueueRelease")]
      = .ok () := by
  refine ⟨?_, ?_, ?_⟩
  · exact ((claim_C2 "WGPUDevice" [("_release", dummyFunc "wgpuDeviceRelease")]).1
      rfl rfl).1
  · exact ((claim_C2 "WGPUAdapter" [("_reference", dummyFunc "wgpuAdapterReference")]).2.1
      rfl rfl).1
  · exact (claim_C2 "WGPUQueue"
      [("_reference", dummyFunc "wgpuQueueReference"),
       ("_release", dummyFunc "wgpuQueueRelease")]).2.2 rfl rfl

/-! ### Claim C9 -/

/-- Claim C9: the registry lookup `ApiInfo.getType` returns the
registered descriptor when the name is registered and the `UNKNOWN`
sentinel otherwise; being a total Lean function into `CType`, it raises
nothing for any input name. -/
theorem claim_C9 (api : ApiInfo) (name : String) :
    (∀ d, mapGet api.types name = some d → api.getTypeStr name = d)
    ∧ (mapGet api.types name = none → api.getTypeStr name = unknownType) := by
  unfold ApiInfo.getTypeStr
  constructor
  · intro d h
    rw [h]
  · intro h
    rw [h]

/-- Claim C9 witness: a seeded primitive resolves to its descriptor; an
unregistered name resolves to the sentinel. -/
theorem claim_C9_witness :
    apiInit.getTypeStr "uint32_t" = CType.prim "uint32_t" "int"
    ∧ apiInit.getTypeStr "WGPUNotRegistered" = unknownType :=
  ⟨(claim_C9 apiInit "uint32_t").1 (CType.prim "uint32_t" "int") rfl,
   (claim_C9 apiInit "WGPUNotRegistered").2 rfl⟩

/-! ### Claim C10 -/

theorem alpha_not_digit (c : Char) (h : c.isAlpha = true) : c.isDigit = false := by
  simp only [Char.isAlpha, Char.isUpper, Char.isLower, Bool.or_eq_true,
    Bool.and_eq_true, decide_eq_true_eq] at h
  simp only [Char.isDigit]
  rw [Bool.and_eq_false_iff]
  right
  rw [decide_eq_false_iff_not]
  intro h3
  have h3n : c.val.toNat ≤ (57 : UInt32).toNat := h3
  have e2 : (57 : UInt32).toNat = 57 := rfl
  rcases h with ⟨h1, _⟩ | ⟨h1, _⟩
  · have h1n : (65 : UInt32).toNat ≤ c.val.toNat := h1
    have e1 : (65 : UInt32).toNat = 65 := rfl
    omega
  · have h1n : (97 : UInt32).toNat ≤ c.val.toNat := h1
    have e1 : (97 : UInt32).toNat = 97 := rfl
    omega

theorem sanitizeIdent_spec (ident : String) :
    sanitizeIdent ident
      = if startsWithAsciiLetter ident = true ∧ ident ≠ "None" then ident
        else "_" ++ ident := by
  unfold sanitizeIdent
  by_cases ha : startsWithAsciiLetter ident = true
  · by_cases hn : ident = "None"
    · simp [ha, hn]
    · simp [ha, hn]
  · have ha' : startsWithAsciiLetter ident = false := by
      revert ha
      cases startsWithAsciiLetter ident <;> simp
    simp [ha', ha]

theorem sanitizeIdent_not_digit (ident : String) :
    startsWithDigit (sanitizeIdent ident) = false := by
  rw [sanitizeIdent_spec]
  by_cases hc : startsWithAsciiLetter ident = true ∧ ident ≠ "None"
  · rw [if_pos hc]
    obtain ⟨ha, _⟩ := hc
    unfold startsWithAsciiLetter at ha
    unfold startsWithDigit
    rcases hd : ident.data with _ | ⟨c, rest⟩
    · rfl
    · rw [hd] at ha
      exact alpha_not_digit c ha
  · rw [if_neg hc]
    show startsWithDigit ⟨'_' :: ident.data⟩ = false
    unfold startsWithDigit
    rfl

theorem sanitizeIdent_ne_none (ident : String) : sanitizeIdent ident ≠ "None" := by
  rw [sanitizeIdent_spec]
  by_cases hc : startsWithAsciiLetter ident = true ∧ ident ≠ "None"
  · rw [if_pos hc]
    exact hc.2
  · rw [if_neg hc]
    intro h
    have hdata : '_' :: ident.data = ("None" : String).data := congrArg String.data h
    simp at hdata

theorem mergeValues_mem {e : CEnumVal} :
    ∀ (vs : List CEnumVal) (acc : List CEnumVal × List CEnumVal),
      e ∈ (mergeValues acc vs).2 →
      e ∈ acc.2 ∨ ∃ orig ∈ vs, orig.name ≠ "Force32"
        ∧ e.name = sanitizeIdent orig.name ∧ e.val = orig.val := by
  intro vs
  induction vs with
  | nil =>
      intro acc h
      exact Or.inl h
  | cons v rest ih =>
      intro acc h
      have h' := ih (mergeValuesStep acc v) h
      rcases h' with h' | ⟨orig, ho, hf, hn, hv⟩
      · unfold mergeValuesStep at h'
        by_cases hf : (v.name != "Force32") = true
        · rw [if_pos hf] at h'
          rcases List.mem_append.1 h' with h'' | h''
          · exact Or.inl h''
          · have he : e = ⟨sanitizeIdent v.name, v.val⟩ := by
              simpa using h''
            refine Or.inr ⟨v, List.mem_cons_self v rest, bne_iff_ne.1 hf, ?_, ?_⟩
            · rw [he]
            · rw [he]

        · rw [if_neg hf] at h'
          exact Or.inl h'
      · exact Or.inr ⟨orig, List.mem_cons_of_mem v ho, hf, hn, hv⟩

/-- Claim C10: for every enum variant recorded by `CEnum.mergeValues`,
the emitted identifier is the cleaned variant name passed through
`sanitizeIdent`, which leaves the name unchanged exactly when it begins
with an ASCII letter and is not `"None"`, and prepends `"_"` otherwise;
consequently no emitted variant identifier begins with a digit and none
is exactly `"None"`. -/
theorem claim_C10 (ident : String) :
    (sanitizeIdent ident
      = if startsWithAsciiLetter ident = true ∧ ident ≠ "None" then ident
        else "_" ++ ident)
    ∧ startsWithDigit (sanitizeIdent ident) = false
    ∧ sanitizeIdent ident ≠ "None"
    ∧ (∀ (cName pyName : String) (vs : List CEnumVal) (e : CEnumVal),
        e ∈ (mkCEnum cName pyName vs).sanitizedVals →
        ∃ orig ∈ vs, orig.name ≠ "Force32" ∧ e.name = sanitizeIdent orig.name
          ∧ startsWithDigit e.name = false ∧ e.name ≠ "None") := by
  refine ⟨sanitizeIdent_spec ident, sanitizeIdent_not_digit ident,
    sanitizeIdent_ne_none ident, ?_⟩
  intro cName pyName vs e he
  have hm : e ∈ (mergeValues ([], []) vs).2 := he
  rcases mergeValues_mem vs ([], []) hm with h | ⟨orig, ho, hf, hn, hv⟩
  · exact absurd h (by simp)
  · refine ⟨orig, ho, hf, hn, ?_, ?_⟩
    · rw [hn]
      exact sanitizeIdent_not_digit orig.name
    · rw [hn]
      exact sanitizeIdent_ne_none orig.name

/-- Claim C10 witness: `None` and a digit-initial name are prefixed
with an underscore, an ordinary name is kept, and the sanitized list of
a concrete enum built from a digit-initial variant has the underscored
identifier. -/
theorem claim_C10_witness :
    sanitizeIdent "None" = "_None"
    ∧ sanitizeIdent "2D" = "_2D"
    ∧ sanitizeIdent "Never" = "Never"
    ∧ startsWithDigit (sanitizeIdent "2D") = false
    ∧ sanitizeIdent "None" ≠ "None" := by
  have h1 := claim_C10 "None"
  have h2 := claim_C10 "2D"
  have h3 := claim_C10 "Never"
  refine ⟨?_, ?_, ?_, h2.2.1, h1.2.2.1⟩
  · rw [h1.1]
    decide
  · rw [h2.1]
    decide
  · rw [h3.1]
    decide

/-! ### Claim C3 -/

/-- Claim C3: a parsed exported function whose first argument's type is
a registered opaque handle is stored in that handle's member-function
map and the loose-function list is untouched; a function with an empty
or `void` parameter list is appended to the loose-function list. -/
theorem claim_C3 (api : ApiInfo) (name argStr returnType : String) :
    (∀ (args : List FuncArg) (a0 : FuncArg) (rest : List FuncArg)
        (pyName : String) (funcs : List (String × CFunc)),
      api.parseFuncArgs argStr = .ok args →
      args = a0 :: rest →
      mapGet api.types a0.ctype.cName
        = some (CType.cOpaque a0.ctype.cName pyName funcs) →
      api.addFunc name argStr returnType
        = .ok (withTypes api (mapSet api.types a0.ctype.cName
            (CType.cOpaque a0.ctype.cName pyName (opaqueAddFunc a0.ctype.cName funcs
              (mkParsedFunc api name returnType args)))))
      ∧ (∀ api', api.addFunc name argStr returnType = .ok api' →
          api'.looseFuncs = api.looseFuncs))
    ∧ (jsTrim argStr = "" ∨ jsTrim argStr = "void" →
      api.addFunc name argStr returnType
        = .ok (withLoose api (api.looseFuncs ++ [mkParsedFunc api name returnType []]))) := by
  constructor
  · intro args a0 rest pyName funcs hparse hargs hlook
    subst hargs
    have hfp : api.findFuncParent (a0 :: rest)
        = some (CType.cOpaque a0.ctype.cName pyName funcs) := hlook
    have heq : api.addFunc name argStr returnType
        = .ok (withTypes api (mapSet api.types a0.ctype.cName
            (CType.cOpaque a0.ctype.cName pyName (opaqueAddFunc a0.ctype.cName funcs
              (mkParsedFunc api name returnType (a0 :: rest)))))) := by
      unfold ApiInfo.addFunc
      rw [hparse]
      dsimp only
      rw [hfp]
      rfl
    refine ⟨heq, ?_⟩
    intro api' h'
    rw [heq] at h'
    cases h'
    rfl
  · intro h
    rcases h with h | h <;>
      simp [ApiInfo.addFunc, ApiInfo.parseFuncArgs, h, withLoose, mkParsedFunc]

/-- Claim C3 witness: on a registry holding the opaque handle
`WGPUDevice`, `wgpuDeviceCreateBuffer(WGPUDevice device)` becomes the
member `createBuffer` of the handle (loose list untouched), while the
zero-argument `wgpuGetVersion()` goes to the loose list. -/
theorem claim_C3_witness :
    apiWithDevice.addFunc "wgpuDeviceCreateBuffer" "WGPUDevice device" "void"
      = .ok (withTypes apiWithDevice (mapSet apiWithDevice.types "WGPUDevice"
          (CType.cOpaque "WGPUDevice" "Device"
            [("createBuffer",
              CFunc.mk "wgpuDeviceCreateBuffer"
                "void wgpuDeviceCreateBuffer([object Object])"
                [FuncArg.mk "device" (CType.cOpaque "WGPUDevice" "Device" [])
                  false false false]
                (FuncArg.mk "return" (CType.prim "void" "VOID") false false false))])))
    ∧ apiWithDevice.addFunc "wgpuGetVersion" "" "uint32_t"
      = .ok (withLoose apiWithDevice
          [CFunc.mk "wgpuGetVersion" "uint32_t wgpuGetVersion()" []
            (FuncArg.mk "return" (CType.prim "uint32_t" "int") false false false)]) := by
  constructor
  · exact ((claim_C3 apiWithDevice "wgpuDeviceCreateBuffer" "WGPUDevice device" "void").1
      [FuncArg.mk "device" (CType.cOpaque "WGPUDevice" "Device" []) false false false]
      (FuncArg.mk "device" (CType.cOpaque "WGPUDevice" "Device" []) false false false) []
      "Device" [] rfl rfl rfl).1
  · exact (claim_C3 apiWithDevice "wgpuGetVersion" "" "uint32_t").2 (Or.inl rfl)

/-! ### Claim C4 -/

/-- Claim C4 counterexample: with the struct `WGPUExtent3D` registered,
the exported function `wgpuExtent3DVolume(WGPUExtent3D extent)` — whose
first argument's type resolves to that registered struct descriptor —
is appended to the loose-function list (a `CStruct` has no `addFunc`
method), contradicting the claim that it is attributed to the struct as
a member function rather than appended to the loose list. -/
theorem claim_C4_counterexample :
    (mapGet apiWithStruct.types "WGPUExtent3D").map CType.kind = some "struct"
    ∧ apiWithStruct.addFunc "wgpuExtent3DVolume" "WGPUExtent3D extent" "uint32_t"
      = .ok (withLoose apiWithStruct
          [CFunc.mk "wgpuExtent3DVolume" "uint32_t wgpuExtent3DVolume([object Object])"
            [FuncArg.mk "extent"
              (CType.cstruct "WGPUExtent3D" "Extent3D" "typedef struct WGPUExtent3D" [] false)
              false false false]
            (FuncArg.mk "return" (CType.prim "uint32_t" "int") false false false)]) :=
  ⟨rfl, rfl⟩

/-- Claim C4 (amended): a parsed exported function whose first
argument's type resolves to a registered struct descriptor is NOT
attributed to the struct as a member function — only opaque handles
carry member functions — and is instead appended to the loose-function
list, with the type registry unchanged. -/
theorem claim_C4_amended (api : ApiInfo) (name argStr returnType : String)
    (args : List FuncArg) (a0 : FuncArg) (rest : List FuncArg)
    (c p cdef : String) (fields : List CStructField) (noEmit : Bool)
    (hparse : api.parseFuncArgs argStr = .ok args)
    (hargs : args = a0 :: rest)
    (hlook : mapGet api.types a0.ctype.cName
      = some (CType.cstruct c p cdef fields noEmit)) :
    api.addFunc name argStr returnType
      = .ok (withLoose api (api.looseFuncs ++ [mkParsedFunc api name returnType args])) := by
  subst hargs
  have hfp : api.findFuncParent (a0 :: rest)
      = some (CType.cstruct c p cdef fields noEmit) := hlook
  unfold ApiInfo.addFunc
  rw [hparse]
  dsimp only
  rw [hfp]
  rfl

/-- Claim C4 witness: the amended claim applied to the registered
struct `WGPUExtent3D`. -/
theorem claim_C4_amended_witness :
    apiWithStruct.addFunc "wgpuExtent3DVolume" "WGPUExtent3D extent" "uint32_t"
      = .ok (withLoose apiWithStruct
          [CFunc.mk "wgpuExtent3DVolume" "uint32_t wgpuExtent3DVolume([object Object])"
            [FuncArg.mk "extent"
              (CType.cstruct "WGPUExtent3D" "Extent3D" "typedef struct WGPUExtent3D" [] false)
              false false false]
            (FuncArg.mk "return" (CType.prim "uint32_t" "int") false false false)]) :=
  claim_C4_amended apiWithStruct "wgpuExtent3DVolume" "WGPUExtent3D extent" "uint32_t"
    [FuncArg.mk "extent"
      (CType.cstruct "WGPUExtent3D" "Extent3D" "typedef struct WGPUExtent3D" [] false)
      false false false]
    (FuncArg.mk "extent"
      (CType.cstruct "WGPUExtent3D" "Extent3D" "typedef struct WGPUExtent3D" [] false)
      false false false) []
    "WGPUExtent3D" "Extent3D" "typedef struct WGPUExtent3D" [] false rfl rfl rfl

/-! ### Claim C5 -/

/-- Claim C5: parsing the concrete `WGPUCompareFunction` header text
registers an enum whose emitted (sanitized) variant list is exactly the
single variant `Never` with value `0x00000001`; `Force32` is kept in the
raw value list but absent from the emitted variants. -/
theorem claim_C5 :
    (findEnums apiInit compareFunctionHeader).map
        (fun api => (mapGet api.types "WGPUCompareFunction").map CType.sanitizedVals)
      = .ok (some [⟨"Never", "0x00000001"⟩])
    ∧ (findEnums apiInit compareFunctionHeader).map
        (fun api => mapGet api.types "WGPUCompareFunction")
      = .ok (some (CType.cenum "WGPUCompareFunction" "CompareFunction"
          [⟨"Never", "0x00000001"⟩, ⟨"Force32", "0x7fffffff"⟩]
          [⟨"Never", "0x00000001"⟩] none)) :=
  ⟨rfl, rfl⟩

/-! ### Claim C8 -/

theorem skipToMarker_none (post : List String)
    (hpost : ∀ l ∈ post, jsIncludes l SKIP_MARKER = false) :
    skipToMarker post = none := by
  induction post with
  | nil => rfl
  | cons l rest ih =>
      unfold skipToMarker
      rw [hpost l (List.mem_cons_self l rest)]
      simp only [Bool.false_eq_true, if_false]
      exact ih (fun x hx => hpost x (List.mem_cons_of_mem l hx))

/-- Claim C8 counterexample: a skip-region start marker with no
matching end marker does NOT raise an error — the cleanup returns
normally, with everything after the start marker silently discarded. -/
theorem claim_C8_counterexample :
    cleanHeader "int a;\nWGPU_SKIP_PROCS\nint b;\nint c;" [] = .ok "int a;" := rfl

/-- Claim C8 (amended): if the input contains a skip-region start
marker with no matching end marker, the lexical-cleanup loop silently
consumes the remainder of the input (the result equals the cleanup of
the lines before the marker) and completes without raising an error. -/
theorem claim_C8_amended (deletions : List String) (pre post : List String)
    (m : String) (fuel : Nat)
    (hfuel : (pre ++ m :: post).length < fuel)
    (hm : jsIncludes (jsTrim m) SKIP_MARKER = true)
    (hm2 : jsIncludes m SKIP_MARKER = true)
    (hpre : ∀ l ∈ pre, jsIncludes (jsTrim l) SKIP_MARKER = false)
    (hpost : ∀ l ∈ post, jsIncludes l SKIP_MARKER = false) :
    cleanHeaderLines deletions fuel (pre ++ m :: post)
      = cleanHeaderLines deletions fuel pre
    ∧ ∃ out, cleanHeaderLines deletions fuel pre = .ok out := by
  induction pre generalizing fuel with
  | nil =>
      rcases fuel with _ | f
      · exact absurd hfuel (by simp)
      · constructor
        · show cleanHeaderLines deletions (f + 1) (m :: post)
            = cleanHeaderLines deletions (f + 1) []
          unfold cleanHeaderLines
          simp only [hm, if_true, discardProcs, hm2, skipToMarker_none post hpost]
        · exact ⟨[], rfl⟩
  | cons l pre' ih =>
      rcases fuel with _ | f
      · exact absurd hfuel (by simp)
      · have hl : jsIncludes (jsTrim l) SKIP_MARKER = false :=
          hpre l (List.mem_cons_self l pre')
        have hpre' : ∀ x ∈ pre', jsIncludes (jsTrim x) SKIP_MARKER = false :=
          fun x hx => hpre x (List.mem_cons_of_mem l hx)
        have hfuel' : (pre' ++ m :: post).length < f := by
          simp only [List.cons_append, List.length_cons] at hfuel
          omega
        obtain ⟨iheq, out, hout⟩ := ih f hfuel' hpre'
        constructor
        · show cleanHeaderLines deletions (f + 1) (l :: (pre' ++ m :: post))
            = cleanHeaderLines deletions (f + 1) (l :: pre')
          unfold cleanHeaderLines
          simp only [hl, Bool.false_eq_true, if_false, iheq]
        · show ∃ o, cleanHeaderLines deletions (f + 1) (l :: pre') = .ok o
          unfold cleanHeaderLines
          simp only [hl, Bool.false_eq_true, if_false]
          by_cases hsh : jsStartsWith (jsTrim l) "#" = true
          · rw [if_pos hsh]
            exact ⟨out, hout⟩
          · rw [if_neg hsh]
            by_cases hex : jsIncludes (jsTrim l) "extern \"C\"" = true
            · rw [if_pos hex]
              exact ⟨out, hout⟩
            · rw [if_neg hex]
              rw [hout]
              exact ⟨deleteStrings l deletions :: out, rfl⟩

/-- Claim C8 witness: the amended claim on a concrete three-line input
whose second line is an unmatched start marker. -/
theorem claim_C8_amended_witness :
    cleanHeaderLines [] 5 ["int a;", "WGPU_SKIP_PROCS", "int b;"]
      = cleanHeaderLines [] 5 ["int a;"]
    ∧ cleanHeaderLines [] 5 ["int a;"] = .ok ["int a;"] := by
  have h := claim_C8_amended [] ["int a;"] ["int b;"] "WGPU_SKIP_PROCS" 5
    (by decide) (by decide) (by decide) (by decide) (by decide)
  exact ⟨h.1, rfl⟩

/-! ### Claim C6 -/

theorem toUint32_coe_of_lt (w : Nat) (h : w < 4294967296) : toUint32 (w : Int) = w := by
  unfold toUint32
  rw [Int.emod_eq_of_lt (Int.ofNat_zero_le w) (by exact_mod_cast h)]
  rfl

theorem fromUint32_of_lt (m : Nat) (h : m < 2147483648) : fromUint32 m = (m : Int) := by
  unfold fromUint32
  rw [if_pos h]

theorem or_lt_int32 (a b : Nat) (ha : a < 2147483648) (hb : b < 2147483648) :
    a ||| b < 2147483648 := by
  have h31 : (2147483648 : Nat) = 2 ^ 31 := by norm_num
  rw [h31] at ha hb ⊢
  exact Nat.or_lt_two_pow ha hb

theorem jsOr32_coe (a b : Nat) (ha : a < 2147483648) (hb : b < 2147483648) :
    jsOr32 (a : Int) (b : Int) = ((a ||| b : Nat) : Int) := by
  unfold jsOr32
  rw [toUint32_coe_of_lt a (lt_trans ha (by norm_num)),
    toUint32_coe_of_lt b (lt_trans hb (by norm_num))]
  exact fromUint32_of_lt _ (or_lt_int32 a b ha hb)

theorem foldl_jsOr32_coe (rest : List Nat) :
    ∀ a : Nat, a < 2147483648 → (∀ w ∈ rest, w < 2147483648) →
      rest.foldl (fun x b => jsOr32 x (b : Int)) (a : Int)
        = ((rest.foldl (· ||| ·) a : Nat) : Int) := by
  induction rest with
  | nil =>
      intro a _ _
      rfl
  | cons w rs ih =>
      intro a ha hrest
      show rs.foldl (fun x b => jsOr32 x (b : Int)) (jsOr32 (a : Int) (w : Int))
        = ((rs.foldl (· ||| ·) (a ||| w) : Nat) : Int)
      rw [jsOr32_coe a w ha (hrest w (List.mem_cons_self w rs))]
      exact ih (a ||| w) (or_lt_int32 a w ha (hrest w (List.mem_cons_self w rs)))
        (fun x hx => hrest x (List.mem_cons_of_mem w hx))

/-- Claim C6 counterexample: with siblings `X = 0x80000000` and
`Y = 0x1`, the entry `Z = A_X | A_Y` satisfies the claim's premise (a
pure bitwise-OR of sibling names with literal integer values), but
JavaScript `|` truncates to signed 32 bits, so normalization yields the
string `0x-7fffffff` rather than the bitwise OR `0x80000001` rendered as
a fixed-width hex constant. -/
theorem claim_C6_counterexample :
    convertEnumValuesToConstants "A"
        [⟨"X", "0x80000000"⟩, ⟨"Y", "0x1"⟩, ⟨"Z", "A_X | A_Y"⟩]
      = .ok [⟨"X", "0x80000000"⟩, ⟨"Y", "0x00000001"⟩, ⟨"Z", "0x-7fffffff"⟩]
    ∧ parseOrPieces (substSiblings "A"
        [⟨"X", "0x80000000"⟩, ⟨"Y", "0x1"⟩, ⟨"Z", "A_X | A_Y"⟩] "A_X | A_Y")
      = some [2147483648, 1]
    ∧ formatHexConstant (((2147483648 ||| 1 : Nat) : Int)) = "0x80000001"
    ∧ ("0x-7fffffff" : String) ≠ "0x80000001" := by
  refine ⟨rfl, rfl, rfl, by decide⟩

/-- Claim C6 (amended): for every enum entry whose value expression is
not itself a numeric literal and whose sibling-substituted form is a
pure bitwise-OR of nonnegative integer literals each below `2^31`,
value normalization produces exactly the bitwise OR of those literals,
rendered as a fixed-width 8-digit hexadecimal constant.  (The bound is
forced by JavaScript `eval`'s 32-bit signed `|`.) -/
theorem claim_C6_amended (parentName : String) (entries : List CEnumVal) (e : CEnumVal)
    (ws : List Nat) (w0 : Nat) (rest : List Nat)
    (hNaN : jsNumberNat e.val = none)
    (hparse : parseOrPieces (substSiblings parentName entries e.val) = some ws)
    (hws : ws = w0 :: rest)
    (hbound : ∀ w ∈ ws, w < 2147483648) :
    convertOneEnumValue parentName entries e
      = .ok ⟨e.name, formatHexConstant ((ws.foldl (· ||| ·) 0 : Nat) : Int)⟩ := by
  subst hws
  unfold convertOneEnumValue
  rw [hNaN]
  dsimp only
  unfold jsEvalOrExpr
  rw [hparse]
  rcases rest with _ | ⟨w1, rs⟩
  · show Except.ok (⟨e.name, formatHexConstant (w0 : Int)⟩ : CEnumVal)
      = .ok ⟨e.name, formatHexConstant (([w0].foldl (· ||| ·) 0 : Nat) : Int)⟩
    rw [show ([w0].foldl (· ||| ·) 0 : Nat) = 0 ||| w0 from rfl, Nat.zero_or]
  · have hw0 : w0 < 2147483648 := hbound w0 (List.mem_cons_self w0 (w1 :: rs))
    have hrest : ∀ w ∈ w1 :: rs, w < 2147483648 :=
      fun w hw => hbound w (List.mem_cons_of_mem w0 hw)
    show Except.ok (⟨e.name,
        formatHexConstant ((w1 :: rs).foldl (fun a b => jsOr32 a (b : Int)) (w0 : Int))⟩ : CEnumVal)
      = .ok ⟨e.name, formatHexConstant (((w0 :: w1 :: rs).foldl (· ||| ·) 0 : Nat) : Int)⟩
    rw [foldl_jsOr32_coe (w1 :: rs) w0 hw0 hrest]
    rw [show ((w0 :: w1 :: rs).foldl (· ||| ·) 0 : Nat)
        = (w1 :: rs).foldl (· ||| ·) (0 ||| w0) from rfl, Nat.zero_or]

/-- Claim C6 witness: `A_X | A_Y` with `X = 0x1` and `Y = 0x2`
normalizes to `0x00000003`, the spec's own example. -/
theorem claim_C6_amended_witness :
    convertOneEnumValue "A" [⟨"X", "0x1"⟩, ⟨"Y", "0x2"⟩, ⟨"Z", "A_X | A_Y"⟩]
        ⟨"Z", "A_X | A_Y"⟩
      = .ok ⟨"Z", "0x00000003"⟩ := by
  have h := claim_C6_amended "A" [⟨"X", "0x1"⟩, ⟨"Y", "0x2"⟩, ⟨"Z", "A_X | A_Y"⟩]
    ⟨"Z", "A_X | A_Y"⟩ [1, 2] 1 [2] rfl rfl rfl (by decide)
  exact h

/-! ### Claim C7 -/

theorem add_eq_lor_of_land_eq_zero (a : Nat) :
    ∀ b : Nat, a &&& b = 0 → a + b = a ||| b := by
  induction a using Nat.binaryRec with
  | z =>
      intro b _
      rw [Nat.zero_add, Nat.zero_or]
  | f x m ih =>
      intro b hb
      induction b using Nat.bitCasesOn with
      | h y n =>
          rw [Nat.land_bit] at hb
          have h0 := Nat.bit_eq_zero_iff.1 hb
          rw [Nat.lor_bit]
          have hadd : Nat.bit x m + Nat.bit y n = Nat.bit (x || y) (m + n) := by
            have hxy : (x && y) = false := h0.2
            cases x <;> cases y
            · simp [Nat.bit_val]
              omega
            · simp [Nat.bit_val]
              omega
            · simp [Nat.bit_val]
              omega
            · exact absurd hxy (by simp)
          rw [hadd, ih n h0.1]

theorem testBit_foldl_lor (l : List Nat) :
    ∀ (a i : Nat), (l.foldl (· ||| ·) a).testBit i
      = (a.testBit i || l.any (fun w => w.testBit i)) := by
  induction l with
  | nil =>
      intro a i
      simp
  | cons w rs ih =>
      intro a i
      show (rs.foldl (· ||| ·) (a ||| w)).testBit i = _
      rw [ih (a ||| w) i, Nat.testBit_lor]
      simp [Bool.or_assoc]

theorem foldl_lor_hoist (l : List Nat) :
    ∀ a : Nat, l.foldl (· ||| ·) a = a ||| l.foldl (· ||| ·) 0 := by
  induction l with
  | nil =>
      intro a
      exact (Nat.or_zero a).symm
  | cons w rs ih =>
      intro a
      show rs.foldl (· ||| ·) (a ||| w) = a ||| rs.foldl (· ||| ·) (0 ||| w)
      rw [ih (a ||| w), ih (0 ||| w), Nat.zero_or, Nat.lor_assoc]

theorem two_pow_land_eq_zero {k x : Nat} (h : x.testBit k = false) :
    2 ^ k &&& x = 0 := by
  apply Nat.eq_of_testBit_eq
  intro j
  rw [Nat.testBit_land, Nat.zero_testBit]
  by_cases hj : k = j
  · subst hj
    rw [h, Bool.and_false]
  · rw [Nat.testBit_two_pow_of_ne hj, Bool.false_and]

theorem land_two_pow_testBit (x k : Nat) :
    x &&& 2 ^ k = if x.testBit k then 2 ^ k else 0 := by
  by_cases hx : x.testBit k = true
  · rw [if_pos hx]
    apply Nat.eq_of_testBit_eq
    intro j
    rw [Nat.testBit_land]
    by_cases hj : k = j
    · subst hj
      rw [hx, Bool.true_and]
    · rw [Nat.testBit_two_pow_of_ne hj, Bool.and_false]
  · have hx' : x.testBit k = false := by
      revert hx
      cases x.testBit k <;> simp
    rw [if_neg hx]
    apply Nat.eq_of_testBit_eq
    intro j
    rw [Nat.testBit_land, Nat.zero_testBit]
    by_cases hj : k = j
    · subst hj
      rw [hx', Bool.false_and]
    · rw [Nat.testBit_two_pow_of_ne hj, Bool.and_false]

theorem testBit_two_pow_inj {k j : Nat} (h : Nat.testBit (2 ^ k) j = true) : k = j := by
  by_contra hne
  rw [Nat.testBit_two_pow_of_ne hne] at h
  exact absurd h (by simp)

theorem sum_eq_foldl_lor (l : List Nat) (hpow : ∀ v ∈ l, ∃ k, v = 2 ^ k)
    (hnodup : l.Nodup) : l.sum = l.foldl (· ||| ·) 0 := by
  induction l with
  | nil => rfl
  | cons v rs ih =>
      obtain ⟨k, hk⟩ := hpow v (List.mem_cons_self v rs)
      have hrsum : rs.sum = rs.foldl (· ||| ·) 0 :=
        ih (fun w hw => hpow w (List.mem_cons_of_mem v hw)) (List.Nodup.of_cons hnodup)
      have hnotin : v ∉ rs := (List.nodup_cons.1 hnodup).1
      have hbit : (rs.foldl (· ||| ·) 0).testBit k = false := by
        rw [testBit_foldl_lor rs 0 k, Nat.zero_testBit, Bool.false_or]
        rw [List.any_eq_false]
        intro w hw
        obtain ⟨kw, hkw⟩ := hpow w (List.mem_cons_of_mem v hw)
        subst hkw
        intro hb
        have hkj : kw = k := testBit_two_pow_inj hb
        subst hkj
        exact hnotin (hk ▸ hw)
      have hland : v &&& rs.foldl (· ||| ·) 0 = 0 := by
        rw [hk]
        exact two_pow_land_eq_zero hbit
      rw [List.sum_cons, hrsum, add_eq_lor_of_land_eq_zero v _ hland]
      show v ||| rs.foldl (· ||| ·) 0 = rs.foldl (· ||| ·) (0 ||| v)
      rw [Nat.zero_or, foldl_lor_hoist rs v]

theorem foldl_lor_ne_zero (l : List Nat) (v : Nat) (hv : v ∈ l) (k : Nat)
    (hk : v = 2 ^ k) : l.foldl (· ||| ·) 0 ≠ 0 := by
  intro h0
  have heq := testBit_foldl_lor l 0 k
  rw [h0, Nat.zero_testBit, Bool.false_or] at heq
  have hany : l.any (fun w => w.testBit k) = true :=
    List.any_eq_true.2 ⟨v, hv, by rw [hk]; exact Nat.testBit_two_pow_self⟩
  rw [hany] at heq
  exact absurd heq (by simp)

theorem mem_chosen_iff_bit (chosen : List Nat)
    (hpowc : ∀ v ∈ chosen, ∃ k, v = 2 ^ k) (j : Nat) :
    (chosen.foldl (· ||| ·) 0).testBit j = true ↔ (2 ^ j) ∈ chosen := by
  rw [testBit_foldl_lor, Nat.zero_testBit, Bool.false_or, List.any_eq_true]
  constructor
  · rintro ⟨w, hw, hb⟩
    obtain ⟨k, rfl⟩ := hpowc w hw
    have hkj : k = j := testBit_two_pow_inj hb
    subst hkj
    exact hw
  · intro hj
    exact ⟨2 ^ j, hj, Nat.testBit_two_pow_self⟩

/-- Claim C7 counterexample: for the enum members `{X = 0x1, Y = 0x3}`
(overlapping bit patterns) and the duplicate-free list `[X, Y]`, the
emitted flags class stores `sum(set(flags)) = 4`, so `int(flags)` is `4`
and not the bitwise OR `3`, and iteration yields the empty set instead
of `{X, Y}`. -/
theorem claim_C7_counterexample :
    flagsInitValue [1, 3] = 4
    ∧ (1 ||| 3 : Nat) = 3
    ∧ flagsToInt (flagsInitValue [1, 3]) ≠ (1 ||| 3 : Nat)
    ∧ flagsIter [1, 3] (flagsInitValue [1, 3]) = some [] := by
  refine ⟨by decide, by decide, by decide, by decide⟩

/-- Claim C7 (amended): for the emitted flags wrapper class, when the
underlying enum's variants have pairwise distinct power-of-two values,
a flags value constructed from a nonempty duplicate-free list of
members satisfies the claimed round trip: `int(flags)` is the bitwise
OR of the members' values, and iteration yields exactly the chosen
members, in the underlying enum's declaration order. -/
theorem claim_C7_amended (members chosen : List Nat)
    (hpow : ∀ v ∈ members, ∃ k, v = 2 ^ k)
    (hnodup : members.Nodup)
    (hsub : ∀ v ∈ chosen, v ∈ members)
    (hcnodup : chosen.Nodup)
    (hne : chosen ≠ []) :
    flagsToInt (flagsInitValue chosen) = chosen.foldl (· ||| ·) 0
    ∧ flagsIter members (flagsInitValue chosen)
        = some (members.filter (fun v => decide (v ∈ chosen)))
    ∧ (∀ v, v ∈ members.filter (fun v => decide (v ∈ chosen)) ↔ v ∈ chosen) := by
  have hpowc : ∀ v ∈ chosen, ∃ k, v = 2 ^ k := fun v hv => hpow v (hsub v hv)
  have hval : flagsInitValue chosen = chosen.foldl (· ||| ·) 0 := by
    unfold flagsInitValue
    rw [List.Nodup.dedup hcnodup]
    exact sum_eq_foldl_lor chosen hpowc hcnodup
  have hne0 : chosen.foldl (· ||| ·) 0 ≠ 0 := by
    rcases hc : chosen with _ | ⟨c0, cr⟩
    · exact absurd hc hne
    · obtain ⟨k0, hk0⟩ := hpowc c0 (hc ▸ List.mem_cons_self c0 cr)
      exact foldl_lor_ne_zero _ c0 (List.mem_cons_self c0 cr) k0 hk0
  refine ⟨hval, ?_, ?_⟩
  · unfold flagsIter
    rw [hval]
    have hbeq : (chosen.foldl (· ||| ·) 0 == 0) = false := by
      rw [beq_eq_false_iff_ne]
      exact hne0
    rw [hbeq]
    simp only [Bool.false_eq_true, if_false]
    congr 1
    apply List.filter_congr
    intro m hm
    obtain ⟨j, rfl⟩ := hpow m hm
    rw [land_two_pow_testBit]
    by_cases hb : (chosen.foldl (· ||| ·) 0).testBit j = true
    · rw [if_pos hb]
      have hmem : (2 ^ j) ∈ chosen := (mem_chosen_iff_bit chosen hpowc j).1 hb
      have hpos : 0 < 2 ^ j := Nat.pos_pow_of_pos j (by omega)
      simp [hmem, hpos]
    · have hb' : (chosen.foldl (· ||| ·) 0).testBit j = false := by
        revert hb
        cases (chosen.foldl (· ||| ·) 0).testBit j <;> simp
      rw [hb']
      simp only [if_false, Bool.false_eq_true]
      have hmem : (2 ^ j) ∉ chosen := fun hcm => hb ((mem_chosen_iff_bit chosen hpowc j).2 hcm)
      simp [hmem]
  · intro v
    rw [List.mem_filter]
    constructor
    · rintro ⟨_, hv⟩
      exact of_decide_eq_true hv
    · intro hv
      exact ⟨hsub v hv, decide_eq_true hv⟩

/-- Claim C7 witness: members `1, 2, 4`, chosen `[1, 4]`: the stored
value is `1 ||| 4 = 5` and iteration yields `[1, 4]` in declaration
order. -/
theorem claim_C7_amended_witness :
    flagsToInt (flagsInitValue [1, 4]) = ([1, 4].foldl (· ||| ·) 0)
    ∧ flagsToInt (flagsInitValue [1, 4]) = 5
    ∧ flagsIter [1, 2, 4] (flagsInitValue [1, 4]) = some [1, 4] := by
  have h := claim_C7_amended [1, 2, 4] [1, 4]
    (by
      intro v hv
      fin_cases hv
      · exact ⟨0, rfl⟩
      · exact ⟨1, rfl⟩
      · exact ⟨2, rfl⟩)
    (by decide) (by decide) (by decide) (by decide)
  refine ⟨h.1, by decide, ?_⟩
  rw [h.2.1]
  rfl

end Xgpu
